import Mathlib

/-!
Shallow embedding of `src/semantica.py` (class `Semantica`).

Python floats are idealized as real numbers; all vectors of the embedding
space share one fixed dimension.  The external gensim `KeyedVectors`
object `self.c` is modeled by the abstract `VectorSpace` structure: a
read-only key-to-vector mapping together with the nearest-neighbour
queries the code calls.  Python exceptions (`ValueError`, `KeyError`,
`AttributeError`, `IndexError`) are modeled with `Except SemErr`.
-/

namespace Semantica

/-- A concept vector: a one-dimensional numpy float array, idealized over ℝ. -/
abbrev Vec := List ℝ

/-- Python exceptions the code in `src/semantica.py` can raise:
`ValueError` from `to_vector`, `KeyError` from a vocabulary lookup,
`AttributeError` from `.lower()` on a non-string, `IndexError` from
indexing an empty sequence. -/
inductive SemErr where
  | invalidConceptType
  | unknownKey
  | attributeError
  | indexError
deriving DecidableEq

/-- A Python value passed as a "concept": a vocabulary key (`str`), a raw
vector (`ndarray`), or anything else (which `to_vector` rejects with
`ValueError`). -/
inductive Concept where
  | key (s : String)
  | vec (v : Vec)
  | other

/-- External gensim `KeyedVectors` capability (`self.c`), treated as
read-only: key lookup (`get_vector`), nearest-neighbour search for a raw
vector (`most_similar([v], topn)`, also `similar_by_vector` with its
default `topn = 10`), nearest-neighbour search for a key
(`most_similar(key, topn)`), pairwise `similarity`, and the raw vector
table (`self.c.vectors`). -/
structure VectorSpace where
  getVector : String → Option Vec
  mostSimilar : Vec → Nat → List (String × ℝ)
  mostSimilarKey : String → Nat → List (String × ℝ)
  similarity : String → String → ℝ
  vectors : List Vec

/-- Sequencing that propagates a raised Python exception. -/
def exBind {α β : Type} (x : Except SemErr α) (f : α → Except SemErr β) :
    Except SemErr β :=
  match x with
  | .error e => .error e
  | .ok a => f a

/-- Evaluate `f` left to right over a list, propagating the first raised
exception (a Python list comprehension over fallible calls). -/
def mapME {α β : Type} (f : α → Except SemErr β) : List α → Except SemErr (List β)
  | [] => .ok []
  | x :: xs => exBind (f x) (fun y => exBind (mapME f xs) (fun ys => .ok (y :: ys)))

/-- `Semantica.unique`: drop duplicates, keeping the first occurrence of
each element (the Python `seen`-set filtering, which appends each not yet
seen element in order). -/
def unique (l : List String) : List String :=
  l.foldl (fun acc x => if acc.contains x then acc else acc ++ [x]) []

/-- Python `str.lower()`: lowercase every character (the code's keys are
basic latin). -/
def strLower (s : String) : String := ⟨s.data.map Char.toLower⟩

/-- `Semantica.lower_unique`: lowercase every key, then `unique`. -/
def lower_unique (l : List String) : List String :=
  unique (l.map strLower)

/-- Elementwise sum of two vectors of the space's common dimension. -/
def vAdd (a b : Vec) : Vec := List.zipWith (· + ·) a b

/-- The L2 norm used by `gensim.matutils.unitvec`. -/
noncomputable def l2norm (v : Vec) : ℝ :=
  Real.sqrt ((v.map (fun x => x ^ 2)).sum)

/-- `gensim.matutils.unitvec`: scale a vector to unit length; a vector of
zero norm is returned unchanged (guarded, no division). -/
noncomputable def unitvec (v : Vec) : Vec :=
  if 0 < l2norm v then v.map (fun x => x / l2norm v) else v

/-- `numpy.array(vs).mean(axis=0)`: the elementwise mean of a list of
equal-dimension vectors.  For an empty list numpy yields a NaN *scalar*
(with a runtime warning), modeled as `none`. -/
noncomputable def npMean : List Vec → Option Vec
  | [] => none
  | v :: vs => some ((vs.foldl vAdd v).map (fun x => x / ((vs.length : ℝ) + 1)))

/-- `numpy.mean` over a list of scalars; `none` models the NaN produced
for an empty list. -/
noncomputable def npMeanScalar : List ℝ → Option ℝ
  | [] => none
  | x :: xs => some ((x :: xs).sum / ((xs.length : ℝ) + 1))

/-- `numpy.dot` of two vectors of the space's common dimension. -/
noncomputable def dotp (a b : Vec) : ℝ := (List.zipWith (· * ·) a b).sum

/-- `Semantica.to_vector`: an ndarray is used as-is, a str key is looked
up in the space (`KeyError` when absent), anything else raises
`ValueError`; the extracted vector is optionally unit-normalized. -/
noncomputable def to_vector (sp : VectorSpace) (concept : Concept)
    (norm_result : Bool) : Except SemErr Vec :=
  match concept with
  | .vec v => .ok (if norm_result then unitvec v else v)
  | .key s =>
    match sp.getVector s with
    | some v => .ok (if norm_result then unitvec v else v)
    | none => .error .unknownKey
  | .other => .error .invalidConceptType

/-- Python `==` between a result string and a concept (the
`str(e) != str(concept)` filters and the `in` tests); a string never
equals an ndarray or any non-string value. -/
def pyEqStr (e : String) : Concept → Bool
  | .key s => e == s
  | _ => false

/-- Python `e in concepts` for a string `e` and a list of concepts. -/
def pyMem (e : String) (l : List Concept) : Bool := l.any (pyEqStr e)

/-- `Semantica.field`: the keys of the `max_concept_count` nearest
neighbours of the resolved concept, optionally lowercased and
deduplicated, and with the query key itself removed by exact string
comparison when the query was a key. -/
noncomputable def field (sp : VectorSpace) (concept : Concept)
    (norm_concept : Bool) (lower : Bool) (max_concept_count : Nat) :
    Except SemErr (List String) :=
  exBind (to_vector sp concept norm_concept) (fun v =>
    let f0 := (sp.mostSimilar v max_concept_count).map Prod.fst
    let f1 := if lower then lower_unique f0 else f0
    .ok (match concept with
      | .key s => f1.filter (fun e => e != s)
      | _ => f1))

/-- Result of `Semantica.mix`: a raw averaged vector under
`return_vector`, the NaN scalar numpy produces as the mean of zero
vectors, or a list of field keys. -/
inductive MixOut where
  | vecOut (v : Vec)
  | nanScalar
  | keys (l : List String)

/-- `Semantica.mix`: average the resolved concept vectors; either return
the raw average, or compute its semantic field (with
`norm_concept := norm_result`), optionally lowercase-dedup it again, and
filter out every input concept that was itself a key.  With zero concepts
numpy's mean is a NaN scalar: under `return_vector` it is returned as-is,
and otherwise `field`'s `to_vector` raises `ValueError` on it (it is
neither str nor ndarray). -/
noncomputable def mix (sp : VectorSpace) (concepts : List Concept)
    (norm_concepts norm_result lower return_vector : Bool) :
    Except SemErr MixOut :=
  exBind (mapME (fun c => to_vector sp c norm_concepts) concepts) (fun cvs =>
    match npMean cvs with
    | none =>
      if return_vector then .ok .nanScalar else .error .invalidConceptType
    | some m =>
      if return_vector then .ok (.vecOut m)
      else
        exBind (field sp (.vec m) norm_result lower 10) (fun results =>
          let results := if lower then lower_unique results else results
          .ok (.keys (results.filter (fun e => !pyMem e concepts)))))

/-- `Semantica.shift`: the elementwise mean of the negated source vector
and the target vector (`numpy.array([-s, t]).mean(axis=0)`), optionally
unit-normalized.  A two-element mean is never the empty NaN case, so the
`getD` default is unreachable. -/
noncomputable def shift (sp : VectorSpace) (source target : Concept)
    (norm_concepts norm_result : Bool) : Except SemErr Vec :=
  exBind (to_vector sp source norm_concepts) (fun sv =>
    exBind (to_vector sp target norm_concepts) (fun tv =>
      let sh := (npMean [sv.map (fun x => -1 * x), tv]).getD []
      .ok (if norm_result then unitvec sh else sh)))

/-- Stable insertion of `x` into a list sorted by `keyf`: `x` goes in
front of the first element whose key is ≥ its own. -/
noncomputable def insertByKey (keyf : String → ℝ) (x : String) :
    List String → List String
  | [] => [x]
  | y :: ys => if keyf x ≤ keyf y then x :: y :: ys else y :: insertByKey keyf x ys

/-- Python `sorted(l, key=keyf)`: a stable sort, ascending by the
real-valued key. -/
noncomputable def sortByKey (keyf : String → ℝ) (l : List String) : List String :=
  l.foldr (insertByKey keyf) []

/-- Extract the key list from a `mix` result with `return_vector = false`
(such a call always yields `keys`; the default is unreachable). -/
def mixKeys : MixOut → List String
  | .keys l => l
  | _ => []

/-- The sort step of `Semantica.span`
(`sorted(results, key=lambda x: similarity(x, end) - similarity(x, start))`).
With a nonempty list the key function performs vocabulary lookups on both
endpoints, so non-str endpoints make gensim raise. -/
noncomputable def spanSort (sp : VectorSpace) (results : List String)
    (start endC : Concept) : Except SemErr (List String) :=
  match results with
  | [] => .ok []
  | _ :: _ =>
    match start, endC with
    | .key s, .key t =>
      .ok (sortByKey (fun x => sp.similarity x t - sp.similarity x s) results)
    | _, _ => .error .unknownKey

/-- `Semantica.span`: mix `start` with interior scalings of the
start-to-end shift for each step, flatten the resulting fields, drop keys
equal (Python `in`) to either endpoint, sort across the spectrum,
lowercase-dedup, and wrap with the lowercased endpoints — the final
`start.lower()` / `end.lower()` raise `AttributeError` unless both
endpoints are strings. -/
noncomputable def span (sp : VectorSpace) (start endC : Concept) (steps : Nat)
    (norm_concepts norm_shift_result norm_result norm_mix_concepts : Bool) :
    Except SemErr (List String) :=
  exBind (shift sp start endC norm_concepts norm_shift_result) (fun sh =>
    exBind (mapME (fun (step : ℕ) =>
        exBind (mix sp
            [start, .vec (sh.map (fun x => x * (1 / ((steps : ℝ) + 1)) * (step : ℝ)))]
            norm_mix_concepts norm_result false false)
          (fun out => .ok (mixKeys out)))
        (List.range' 1 steps))
      (fun stepFields =>
        let results := stepFields.flatten
        let results := results.filter (fun e => !pyMem e [start, endC])
        exBind (spanSort sp results start endC) (fun sorted =>
          let mid := lower_unique sorted
          match start, endC with
          | .key s, .key t => .ok ([strLower s] ++ mid ++ [strLower t])
          | _, _ => .error .attributeError)))

/-- One match the `Semantica.match` scan prints: the new root key, the
per-relation leaf-key lists, and the mean alignment score. -/
structure MatchRec where
  root : String
  leaves : List (List String)
  score : ℝ

/-- The `self.mix(new_root_vector, skeleton[j], return_vector=True)` call
inside `Semantica.match`; both arguments are ndarrays, so it always
yields a raw vector (the `[]` default is unreachable). -/
noncomputable def mixVec (sp : VectorSpace) (v skel : Vec) : Except SemErr Vec :=
  match mix sp [.vec v, .vec skel] true true true true with
  | .ok (.vecOut m) => .ok m
  | .ok _ => .ok []
  | .error e => .error e

/-- One candidate evaluation inside `Semantica.match`'s scan: the leaf
vectors, the new root key (head of `similar_by_vector(v)`, `IndexError`
if there is none), the leaf-key lists filtered against the model and the
new root, and the mean alignment score over all `(j, k)` contributions
(`none` models numpy's NaN mean of an empty list). -/
noncomputable def candidateEval (sp : VectorSpace) (model : List Concept)
    (skeleton : List Vec) (v : Vec) :
    Except SemErr (String × List (List String) × Option ℝ) :=
  exBind (mapME (fun skel => mixVec sp v skel) skeleton) (fun leafVecs =>
    match (sp.mostSimilar v 10).head? with
    | none => .error .indexError
    | some rootPair =>
      let newRoot := rootPair.1
      let leafKeys := leafVecs.map (fun f =>
        ((sp.mostSimilar f 10).map Prod.fst).filter
          (fun e => !pyMem e model && e != newRoot))
      exBind (mapME (fun pr =>
          mapME (fun lk =>
              exBind (shift sp (.key newRoot) (.key lk) true true)
                (fun sh => .ok (dotp sh pr.1)))
            pr.2)
          (skeleton.zip leafKeys))
        (fun scoreLists =>
          .ok (newRoot, leafKeys, npMeanScalar scoreLists.flatten)))

/-- One candidate of `Semantica.match`: a match record is produced
exactly when the mean alignment score is a number exceeding 0.25 (a NaN
mean fails the `>` comparison, so such a candidate is skipped). -/
noncomputable def candidate (sp : VectorSpace) (model : List Concept)
    (skeleton : List Vec) (v : Vec) : Except SemErr (Option MatchRec) :=
  exBind (candidateEval sp model skeleton v) (fun r =>
    match r.2.2 with
    | none => .ok none
    | some m => .ok (if (0.25 : ℝ) < m then some ⟨r.1, r.2.1, m⟩ else none))

/-- The target domain of `Semantica.match`: the vectors of the 10000
nearest neighbours of `target` (each resolved through `to_vector`) when a
truthy target is given — the empty string is falsy in Python — and
otherwise every vector of the space. -/
noncomputable def targetDomain (sp : VectorSpace) (target : Option String) :
    Except SemErr (List Vec) :=
  match target with
  | some t =>
    if t = "" then .ok sp.vectors
    else mapME (fun p => to_vector sp (.key p.1) true) (sp.mostSimilarKey t 10000)
  | none => .ok sp.vectors

/-- `Semantica.match`: build the shift skeleton from the model, scan the
target domain in order, and collect the matches the code prints, in scan
order (`model[0]` raises `IndexError` on an empty model). -/
noncomputable def matchRun (sp : VectorSpace) (model : List Concept)
    (target : Option String) : Except SemErr (List MatchRec) :=
  match model with
  | [] => .error .indexError
  | root :: rest =>
    exBind (mapME (fun c => shift sp root c true true) rest) (fun skeleton =>
      exBind (targetDomain sp target) (fun dom =>
        exBind (mapME (candidate sp (root :: rest) skeleton) dom) (fun outs =>
          .ok (outs.filterMap id))))

/-- A small concrete vector space for concrete evaluations: every key has
the one-dimensional vector `[1]` except the absent key `"missing"`, and
every nearest-neighbour query answers `[("paris", 1)]` truncated to the
requested count. -/
noncomputable def exSp : VectorSpace where
  getVector := fun s => if s = "missing" then none else some [1]
  mostSimilar := fun _ n => ([("paris", (1 : ℝ))]).take n
  mostSimilarKey := fun _ n => ([("paris", (1 : ℝ))]).take n
  similarity := fun _ _ => 0
  vectors := [[1]]

/-- A concrete one-dimensional space tailored to evaluating `matchRun` on
the model `["r", "a", "b"]`: the keys `"a"` and `"q"` carry `[1]`, every
other key carries `[-1]`, and the nearest-neighbour answer depends only
on the query vector. -/
noncomputable def exSp4 : VectorSpace where
  getVector := fun s => if s = "a" ∨ s = "q" then some [1] else some [(-1 : ℝ)]
  mostSimilar := fun v _ =>
    if v = [(0 : ℝ)] then [("q", 1)]
    else if v = [(-1 / 2 : ℝ)] then [("r", 1)]
    else [("p", 1)]
  mostSimilarKey := fun _ _ => []
  similarity := fun _ _ => 0
  vectors := [[(-1 : ℝ)]]

theorem exBind_ok {α β : Type} (a : α) (f : α → Except SemErr β) :
    exBind (.ok a) f = f a := rfl

theorem exBind_error {α β : Type} (e : SemErr) (f : α → Except SemErr β) :
    exBind (.error e) f = .error e := rfl

theorem exBind_ok_inv {α β : Type} {x : Except SemErr α} {f : α → Except SemErr β}
    {b : β} (h : exBind x f = .ok b) : ∃ a, x = .ok a ∧ f a = .ok b := by
  cases x with
  | error e => simp [exBind] at h
  | ok a => exact ⟨a, rfl, h⟩

theorem exBind_error_forall {α β : Type} (x : Except SemErr α)
    {f : α → Except SemErr β} (h : ∀ a, ∃ e, f a = .error e) :
    ∃ e, exBind x f = .error e := by
  cases x with
  | error e => exact ⟨e, rfl⟩
  | ok a => exact h a

theorem mapME_nil {α β : Type} (f : α → Except SemErr β) : mapME f [] = .ok [] := rfl

theorem mapME_cons_ok_inv {α β : Type} {f : α → Except SemErr β} {x : α}
    {xs : List α} {ys : List β} (h : mapME f (x :: xs) = .ok ys) :
    ∃ y ys', f x = .ok y ∧ mapME f xs = .ok ys' ∧ ys = y :: ys' := by
  simp only [mapME] at h
  obtain ⟨y, hy, h2⟩ := exBind_ok_inv h
  obtain ⟨ys', hys', h3⟩ := exBind_ok_inv h2
  exact ⟨y, ys', hy, hys', by cases h3; rfl⟩

theorem mapME_length {α β : Type} {f : α → Except SemErr β} :
    ∀ {l : List α} {ys : List β}, mapME f l = .ok ys → ys.length = l.length := by
  intro l
  induction l with
  | nil => intro ys h; cases h; rfl
  | cons x xs ih =>
    intro ys h
    obtain ⟨y, ys', _, h2, rfl⟩ := mapME_cons_ok_inv h
    simp [ih h2]

theorem mapME_mem_iff {α β : Type} {f : α → Except SemErr β} :
    ∀ {l : List α} {ys : List β}, mapME f l = .ok ys →
      ∀ y, y ∈ ys ↔ ∃ x ∈ l, f x = .ok y := by
  intro l
  induction l with
  | nil => intro ys h y; cases h; simp
  | cons x xs ih =>
    intro ys h y
    obtain ⟨y0, ys', hy0, h2, rfl⟩ := mapME_cons_ok_inv h
    constructor
    · intro hmem
      rcases List.mem_cons.mp hmem with rfl | hmem'
      · exact ⟨x, List.mem_cons_self x xs, hy0⟩
      · obtain ⟨x', hx', hfx'⟩ := (ih h2 y).mp hmem'
        exact ⟨x', List.mem_cons_of_mem x hx', hfx'⟩
    · rintro ⟨x', hx', hfx'⟩
      rcases List.mem_cons.mp hx' with rfl | hx''
      · rw [hy0] at hfx'
        cases hfx'
        exact List.mem_cons_self _ _
      · exact List.mem_cons_of_mem _ ((ih h2 y).mpr ⟨x', hx'', hfx'⟩)

theorem mapME_of_ok {α β : Type} {f : α → Except SemErr β} (g : α → β) :
    ∀ {l : List α}, (∀ x ∈ l, f x = .ok (g x)) → mapME f l = .ok (l.map g) := by
  intro l
  induction l with
  | nil => intro _; rfl
  | cons x xs ih =>
    intro h
    simp only [mapME, h x (List.mem_cons_self x xs), exBind_ok,
      ih (fun x' hx' => h x' (List.mem_cons_of_mem x hx')), List.map_cons]

theorem mapME_isOk {α β : Type} {f : α → Except SemErr β} :
    ∀ {l : List α}, (∀ x ∈ l, ∃ y, f x = .ok y) → ∃ ys, mapME f l = .ok ys := by
  intro l
  induction l with
  | nil => intro _; exact ⟨[], rfl⟩
  | cons x xs ih =>
    intro h
    obtain ⟨y, hy⟩ := h x (List.mem_cons_self x xs)
    obtain ⟨ys, hys⟩ := ih (fun x' hx' => h x' (List.mem_cons_of_mem x hx'))
    exact ⟨y :: ys, by simp only [mapME, hy, exBind_ok, hys]⟩

theorem unique_aux_nodup (l : List String) :
    ∀ acc : List String, acc.Nodup →
      (l.foldl (fun acc x => if acc.contains x then acc else acc ++ [x]) acc).Nodup := by
  induction l with
  | nil => intro acc h; simpa using h
  | cons x xs ih =>
    intro acc h
    simp only [List.foldl_cons]
    by_cases hc : acc.contains x = true
    · rw [if_pos hc]
      exact ih acc h
    · rw [if_neg hc]
      have hx : x ∉ acc := fun hmem => hc (List.elem_iff.mpr hmem)
      have : (acc ++ [x]).Nodup := by
        simp [List.nodup_append, h, hx]
      exact ih (acc ++ [x]) this

theorem unique_nodup (l : List String) : (unique l).Nodup :=
  unique_aux_nodup l [] List.nodup_nil

theorem unique_aux_length (l : List String) :
    ∀ acc : List String,
      (l.foldl (fun acc x => if acc.contains x then acc else acc ++ [x]) acc).length
        ≤ acc.length + l.length := by
  induction l with
  | nil => intro acc; simp
  | cons x xs ih =>
    intro acc
    simp only [List.foldl_cons]
    by_cases hc : acc.contains x = true
    · rw [if_pos hc]
      calc _ ≤ acc.length + xs.length := ih acc
        _ ≤ acc.length + (x :: xs).length := by
          simp only [List.length_cons]
          omega
    · rw [if_neg hc]
      calc _ ≤ (acc ++ [x]).length + xs.length := ih (acc ++ [x])
        _ ≤ acc.length + (x :: xs).length := by
          simp only [List.length_cons, List.length_append, List.length_cons,
            List.length_nil]
          omega

theorem unique_length_le (l : List String) : (unique l).length ≤ l.length := by
  have h := unique_aux_length l []
  simp only [List.length_nil, Nat.zero_add] at h
  rw [unique]
  exact h

theorem lower_unique_nodup (l : List String) : (lower_unique l).Nodup :=
  unique_nodup _

theorem lower_unique_length_le (l : List String) :
    (lower_unique l).length ≤ l.length := by
  calc (lower_unique l).length ≤ (l.map strLower).length := unique_length_le _
    _ = l.length := List.length_map _ _

theorem npMean_pair (a b : Vec) :
    (npMean [a, b]).getD [] = List.zipWith (fun x y => (x + y) / 2) a b := by
  simp only [npMean, List.foldl_cons, List.foldl_nil, List.length_cons,
    List.length_nil, Nat.cast_zero, Option.getD_some, vAdd]
  rw [List.map_zipWith]
  norm_num

theorem shift_raw_eq (sv tv : Vec) :
    (npMean [sv.map (fun x => -1 * x), tv]).getD [] =
      List.zipWith (fun a b => (b - a) / 2) sv tv := by
  rw [npMean_pair, List.zipWith_map_left]
  have h : (fun a b => ((-1 : ℝ) * a + b) / 2) = fun (a b : ℝ) => (b - a) / 2 := by
    funext a b
    ring
  rw [h]

theorem zipWith_half_diff_self (v : Vec) :
    List.zipWith (fun a b => (b - a) / 2) v v = List.replicate v.length (0 : ℝ) := by
  induction v with
  | nil => rfl
  | cons x xs ih => simp [ih, List.replicate_succ]

theorem sum_sq_nonneg (v : Vec) : 0 ≤ (v.map (fun x => x ^ 2)).sum := by
  apply List.sum_nonneg
  intro x hx
  obtain ⟨y, _, rfl⟩ := List.mem_map.mp hx
  positivity

theorem l2norm_nonneg (v : Vec) : 0 ≤ l2norm v := Real.sqrt_nonneg _

theorem sum_map_div (l : List ℝ) (c : ℝ) :
    (l.map (fun x => x / c)).sum = l.sum / c := by
  induction l with
  | nil => simp
  | cons x xs ih => simp [ih, add_div]

theorem l2norm_pos_iff (v : Vec) : 0 < l2norm v ↔ ∃ x ∈ v, x ≠ 0 := by
  rw [l2norm, Real.sqrt_pos]
  constructor
  · intro h
    by_contra hall
    push_neg at hall
    have : (v.map (fun x => x ^ 2)).sum = 0 := by
      apply List.sum_eq_zero
      intro y hy
      obtain ⟨x, hx, rfl⟩ := List.mem_map.mp hy
      rw [hall x hx]
      ring
    rw [this] at h
    exact lt_irrefl 0 h
  · rintro ⟨x, hx, hx0⟩
    have h1 : x ^ 2 ∈ v.map (fun x => x ^ 2) := List.mem_map_of_mem _ hx
    have h2 : x ^ 2 ≤ (v.map (fun x => x ^ 2)).sum := by
      apply List.single_le_sum _ _ h1
      intro y hy
      obtain ⟨z, _, rfl⟩ := List.mem_map.mp hy
      positivity
    exact lt_of_lt_of_le (pow_two_pos_of_ne_zero hx0) h2

theorem l2norm_unitvec (v : Vec) (h : 0 < l2norm v) : l2norm (unitvec v) = 1 := by
  rw [unitvec, if_pos h, l2norm]
  have hmap : ((v.map (fun x => x / l2norm v)).map (fun x => x ^ 2)) =
      (v.map (fun x => x ^ 2)).map (fun x => x / l2norm v ^ 2) := by
    rw [List.map_map, List.map_map]
    apply List.map_congr_left
    intro x _
    simp [div_pow]
  rw [hmap, sum_map_div]
  have hsq : l2norm v ^ 2 = (v.map (fun x => x ^ 2)).sum := by
    rw [l2norm, Real.sq_sqrt (sum_sq_nonneg v)]
  rw [hsq, div_self, Real.sqrt_one]
  intro h0
  rw [l2norm, h0, Real.sqrt_zero] at h
  exact lt_irrefl 0 h

theorem unitvec_idem (v : Vec) : unitvec (unitvec v) = unitvec v := by
  by_cases h : 0 < l2norm v
  · have h1 : l2norm (unitvec v) = 1 := l2norm_unitvec v h
    rw [unitvec, h1]
    simp
  · have hv : unitvec v = v := by
      rw [unitvec, if_neg h]
    rw [hv, hv]

theorem unitvec_zero (n : ℕ) :
    unitvec (List.replicate n (0 : ℝ)) = List.replicate n 0 := by
  rw [unitvec, if_neg]
  rw [l2norm]
  have : (List.replicate n (0 : ℝ)).map (fun x => x ^ 2) = List.replicate n 0 := by
    simp
  rw [this]
  simp

theorem unitvec_singleton_sq_one (c : ℝ) (h : c ^ 2 = 1) : unitvec [c] = [c] := by
  have hn : l2norm [c] = 1 := by
    rw [l2norm]
    simp [h]
  rw [unitvec, hn]
  simp

theorem unitvec_zero_single : unitvec [(0 : ℝ)] = [0] := by
  have hn : l2norm [(0 : ℝ)] = 0 := by
    rw [l2norm]
    simp
  rw [unitvec, hn]
  simp

/-- C5 (amended): `mix` with zero concepts never fails with a dedicated
insufficient-concepts error: numpy's mean of an empty array is a NaN
scalar, so with `return_vector` the call returns that NaN scalar, and
without `return_vector` the NaN scalar reaches `to_vector` inside `field`
and raises `ValueError` (the invalid-concept-type error) — for every
combination of the remaining flags. -/
theorem c5_mix_empty (sp : VectorSpace) (nc nr low : Bool) :
    mix sp [] nc nr low true = .ok .nanScalar ∧
    mix sp [] nc nr low false = .error .invalidConceptType :=
  ⟨rfl, rfl⟩

/-- C5 counterexample: at a concrete space and flags, `mix` of zero
concepts returns a value (numpy's NaN scalar) instead of failing with any
error, refuting "mix with zero concepts fails with InsufficientConcepts
for every combination of its flags". -/
theorem c5_counterexample : mix exSp [] true true true true = Except.ok MixOut.nanScalar :=
  rfl

/-- C7: `to_vector` uses a vector argument as-is (optionally normalized),
fetches a known key's vector from the space (optionally normalized),
fails with the unknown-key error on an absent key, fails with the
invalid-concept-type error on anything else, and on a known key without
normalization returns exactly the space's vector. -/
theorem c7_to_vector_cases (sp : VectorSpace) (norm : Bool) (v : Vec)
    (k km : String) (w : Vec) (hk : sp.getVector k = some w)
    (hm : sp.getVector km = none) :
    to_vector sp (.vec v) norm = .ok (if norm then unitvec v else v) ∧
    to_vector sp (.key k) norm = .ok (if norm then unitvec w else w) ∧
    to_vector sp (.key km) norm = .error .unknownKey ∧
    to_vector sp .other norm = .error .invalidConceptType ∧
    to_vector sp (.key k) false = .ok w := by
  refine ⟨rfl, ?_, ?_, rfl, ?_⟩
  · simp only [to_vector, hk]
  · simp only [to_vector, hm]
  · simp only [to_vector, hk, Bool.false_eq_true, if_false]

/-- C7 witness: the cases of `to_vector` evaluated on the concrete space
`exSp` with the known key `"a"` and the absent key `"missing"`. -/
theorem c7_witness :
    to_vector exSp (Concept.vec [2]) false = .ok [2] ∧
    to_vector exSp (Concept.key "a") false = .ok [1] ∧
    to_vector exSp (Concept.key "missing") false = .error .unknownKey ∧
    to_vector exSp Concept.other false = .error .invalidConceptType ∧
    to_vector exSp (Concept.key "a") false = .ok [1] :=
  c7_to_vector_cases exSp false [2] "a" "missing" [1] rfl rfl

/-- C8: `unitvec` yields a vector of L2 norm 1 on every vector with some
nonzero entry, leaves the zero vector unchanged (guarded no-op), and is
idempotent. -/
theorem c8_unitvec_properties (v : Vec) (n : ℕ) :
    ((∃ x ∈ v, x ≠ 0) → l2norm (unitvec v) = 1) ∧
    unitvec (List.replicate n (0 : ℝ)) = List.replicate n 0 ∧
    unitvec (unitvec v) = unitvec v := by
  refine ⟨?_, unitvec_zero n, unitvec_idem v⟩
  intro h
  exact l2norm_unitvec v ((l2norm_pos_iff v).mpr h)

/-- C8 witness: the norm-one and zero-vector clauses at the concrete
vector `[2]` and dimension 1. -/
theorem c8_witness :
    l2norm (unitvec [(2 : ℝ)]) = 1 ∧
    unitvec (List.replicate 1 (0 : ℝ)) = List.replicate 1 0 :=
  ⟨(c8_unitvec_properties [(2 : ℝ)] 1).1 ⟨2, by simp, by norm_num⟩,
   (c8_unitvec_properties [(2 : ℝ)] 1).2.1⟩

/-- C6: with `norm_result = false`, `shift` is exactly the elementwise
mean of the negated source vector and the target vector — that is,
`(target - source) / 2` on the resolved (optionally normalized) vectors —
and shifting a concept to itself gives the zero vector. -/
theorem c6_shift_half_difference (sp : VectorSpace) (source target : Concept)
    (nc : Bool) (sv tv : Vec) (hs : to_vector sp source nc = .ok sv)
    (ht : to_vector sp target nc = .ok tv) :
    shift sp source target nc false =
      .ok (List.zipWith (fun a b => (b - a) / 2) sv tv) ∧
    shift sp source source nc false =
      .ok (List.replicate sv.length (0 : ℝ)) := by
  constructor
  · unfold shift
    rw [hs, exBind_ok, ht, exBind_ok]
    simp only [Bool.false_eq_true, if_false, shift_raw_eq]
  · unfold shift
    rw [hs]
    simp only [exBind_ok, Bool.false_eq_true, if_false, shift_raw_eq,
      zipWith_half_diff_self]

/-- C6 witness: the half-difference and the self-shift at the concrete
vectors `[4]` and `[2]`. -/
theorem c6_witness :
    shift exSp (Concept.vec [4]) (Concept.vec [2]) false false =
      .ok (List.zipWith (fun a b => (b - a) / 2) [4] [2]) ∧
    shift exSp (Concept.vec [4]) (Concept.vec [4]) false false =
      .ok (List.replicate (List.length [(4 : ℝ)]) (0 : ℝ)) :=
  c6_shift_half_difference exSp (Concept.vec [4]) (Concept.vec [2]) false [4] [2] rfl rfl

theorem if_lower_length_le (low : Bool) (f0 : List String) :
    (if low then lower_unique f0 else f0).length ≤ f0.length := by
  cases low with
  | false => simp
  | true => simpa using lower_unique_length_le f0

/-- C1 (amended): when the space's nearest-neighbour query honours its
requested count, every successful `field(c, maxCount = m)` result has at
most `m` elements, and when `c` is a key the exact string `c` never
appears in its own result — under every combination of the
`norm_concept` and `lower` flags.  (The exclusion is by exact string
comparison, not case-insensitive.) -/
theorem c1_field_bound_and_exact_exclusion (sp : VectorSpace) (c : Concept)
    (nc low : Bool) (m : Nat) (l : List String)
    (hms : ∀ v n, (sp.mostSimilar v n).length ≤ n)
    (h : field sp c nc low m = .ok l) :
    l.length ≤ m ∧ ∀ s, c = .key s → s ∉ l := by
  unfold field at h
  obtain ⟨v, _, h2⟩ := exBind_ok_inv h
  dsimp only at h2
  have hf0 : ((sp.mostSimilar v m).map Prod.fst).length ≤ m := by
    rw [List.length_map]
    exact hms v m
  have hf1 :
      (if low then lower_unique ((sp.mostSimilar v m).map Prod.fst)
        else (sp.mostSimilar v m).map Prod.fst).length ≤ m :=
    le_trans (if_lower_length_le low _) hf0
  cases c with
  | key s =>
    rw [Except.ok.injEq] at h2
    subst h2
    constructor
    · exact le_trans (List.length_filter_le _ _) hf1
    · intro s' hs' hmem
      rw [Concept.key.injEq] at hs'
      subst hs'
      have := (List.mem_filter.mp hmem).2
      simp at this
  | vec w =>
    rw [Except.ok.injEq] at h2
    subst h2
    exact ⟨hf1, fun s' hs' => by cases hs'⟩
  | other =>
    rw [Except.ok.injEq] at h2
    subst h2
    exact ⟨hf1, fun s' hs' => by cases hs'⟩

/-- C1 witness: the bound and the exact-string exclusion evaluated for
`field` of the key `"Paris"` on the concrete space `exSp`. -/
theorem c1_witness :
    (["paris"] : List String).length ≤ 10 ∧
    ∀ s, Concept.key "Paris" = Concept.key s → s ∉ (["paris"] : List String) :=
  c1_field_bound_and_exact_exclusion exSp (Concept.key "Paris") true false 10 ["paris"]
    (fun _ _n => le_trans (Nat.le_of_eq (List.length_take _ _)) (Nat.min_le_left _ _))
    rfl

/-- C1 counterexample: on a concrete space, `field` of the key `"Paris"`
returns `["paris"]`, which contains the query key case-insensitively —
refuting "c never appears case-insensitively in its own result under
every combination of the flags". -/
theorem c1_counterexample :
    ¬ (∀ l, field exSp (Concept.key "Paris") true false 10 = Except.ok l →
        ∀ e ∈ l, strLower e ≠ strLower "Paris") := by
  intro h
  exact h ["paris"] rfl "paris" (List.mem_singleton.mpr rfl) (by decide)

/-- C2 (amended): every successful `span(start, end)` on string keys has
length ≥ 2, begins with the lowercased start, ends with the lowercased
end, and its interior (the elements strictly between the two endpoints)
contains no duplicates.  (The full list may contain duplicates: the
prepended/appended lowercased endpoints can collide with the interior or
with each other.) -/
theorem c2_span_shape (sp : VectorSpace) (s t : String) (steps : Nat)
    (a b c d : Bool) (l : List String)
    (h : span sp (.key s) (.key t) steps a b c d = .ok l) :
    2 ≤ l.length ∧ l.head? = some (strLower s) ∧
    l.getLast? = some (strLower t) ∧ ((l.drop 1).dropLast).Nodup := by
  unfold span at h
  obtain ⟨sh, _, h2⟩ := exBind_ok_inv h
  try dsimp only at h2
  obtain ⟨stepFields, _, h3⟩ := exBind_ok_inv h2
  try dsimp only at h3
  obtain ⟨sorted, _, h4⟩ := exBind_ok_inv h3
  try dsimp only at h4
  rw [Except.ok.injEq] at h4
  subst h4
  refine ⟨?_, ?_, ?_, ?_⟩
  · simp only [List.length_append, List.length_cons, List.length_nil]
    omega
  · rfl
  · exact List.getLast?_concat _
  · have hdrop :
        (([strLower s] ++ lower_unique sorted ++ [strLower t]).drop 1).dropLast =
          lower_unique sorted := by
      rw [List.append_assoc, List.singleton_append, List.drop_one, List.tail_cons,
        List.dropLast_concat]
    rw [hdrop]
    exact lower_unique_nodup sorted

/-- C2 witness: the shape properties evaluated on a successful concrete
run, `span exSp "a" "b"` with zero steps. -/
theorem c2_witness :
    2 ≤ (["a", "b"] : List String).length ∧
    (["a", "b"] : List String).head? = some (strLower "a") ∧
    (["a", "b"] : List String).getLast? = some (strLower "b") ∧
    (((["a", "b"] : List String).drop 1).dropLast).Nodup :=
  c2_span_shape exSp "a" "b" 0 false false false false ["a", "b"] rfl

/-- C2 counterexample: `span exSp "a" "A" 0` evaluates to `["a", "a"]`,
which contains a duplicate — refuting "span(start, end, steps) contains
no duplicate elements for every pair of string concepts". -/
theorem c2_counterexample :
    ¬ (∀ l, span exSp (Concept.key "a") (Concept.key "A") 0 false false false false =
          Except.ok l → l.Nodup) := by
  intro h
  have := h ["a", "a"] rfl
  simp at this

/-- C9 (amended): `span` requires both endpoints to be string keys — with
a non-key start or end it always fails (the final `start.lower()` /
`end.lower()` raise `AttributeError`, and the similarity sort can only
look up string keys), so a Concept in the key-or-vector sense is not
accepted there. -/
theorem c9_span_requires_keys (sp : VectorSpace) (start endC : Concept)
    (steps : Nat) (a b c d : Bool)
    (h : (∀ s, start ≠ Concept.key s) ∨ (∀ s, endC ≠ Concept.key s)) :
    ∃ e, span sp start endC steps a b c d = .error e := by
  unfold span
  apply exBind_error_forall
  intro sh
  apply exBind_error_forall
  intro stepFields
  dsimp only
  apply exBind_error_forall
  intro sorted
  cases start with
  | key s =>
    cases endC with
    | key t =>
      rcases h with h | h
      · exact absurd rfl (h s)
      · exact absurd rfl (h t)
    | vec v => exact ⟨.attributeError, rfl⟩
    | other => exact ⟨.attributeError, rfl⟩
  | vec v => cases endC <;> exact ⟨.attributeError, rfl⟩
  | other => cases endC <;> exact ⟨.attributeError, rfl⟩

/-- C9 counterexample: `span` applied to a vector start concept fails
with the attribute error (`ndarray.lower()` does not exist) — refuting
"span accepts Vector arguments for start and end and produces its result
without a type fault". -/
theorem c9_counterexample :
    span exSp (Concept.vec [1]) (Concept.key "A") 0 false false false false =
      .error .attributeError := rfl

/-- C9 witness: the amended statement applied to a concrete vector start
on the concrete space. -/
theorem c9_witness :
    ∃ e, span exSp (Concept.vec [1]) (Concept.key "B") 1 false false false false =
      .error e :=
  c9_span_requires_keys exSp (Concept.vec [1]) (Concept.key "B") 1 false false false false
    (Or.inl fun _s hs => Concept.noConfusion hs)

theorem to_vector_key_isOk (sp : VectorSpace) (k : String) (norm : Bool) (w : Vec)
    (hk : sp.getVector k = some w) : ∃ u, to_vector sp (.key k) norm = .ok u := by
  refine ⟨if norm then unitvec w else w, ?_⟩
  simp only [to_vector, hk]

theorem shift_isOk (sp : VectorSpace) (source target : Concept) (nc nr : Bool)
    (hs : ∃ w, to_vector sp source nc = .ok w)
    (ht : ∃ w, to_vector sp target nc = .ok w) :
    ∃ w, shift sp source target nc nr = .ok w := by
  obtain ⟨sv, hsv⟩ := hs
  obtain ⟨tv, htv⟩ := ht
  have h : shift sp source target nc nr =
      .ok (if nr then unitvec ((npMean [sv.map (fun x => -1 * x), tv]).getD [])
        else (npMean [sv.map (fun x => -1 * x), tv]).getD []) := by
    unfold shift
    rw [hsv, exBind_ok, htv, exBind_ok]
  exact ⟨_, h⟩

theorem mixVec_eq (sp : VectorSpace) (v skel : Vec) :
    mixVec sp v skel =
      .ok ((vAdd (unitvec v) (unitvec skel)).map
        (fun x => x / (((1 : ℕ) : ℝ) + 1))) := rfl

theorem mixVec_isOk (sp : VectorSpace) (v skel : Vec) :
    ∃ w, mixVec sp v skel = .ok w := ⟨_, mixVec_eq sp v skel⟩

theorem flatten_of_all_nil {α : Type} :
    ∀ {L : List (List α)}, (∀ x ∈ L, x = []) → L.flatten = [] := by
  intro L
  induction L with
  | nil => intro _; rfl
  | cons x xs ih =>
    intro h
    rw [List.flatten_cons, h x (List.mem_cons_self x xs),
      ih (fun y hy => h y (List.mem_cons_of_mem x hy)), List.nil_append]

theorem candidate_empty_skeleton (sp : VectorSpace) (model : List Concept) (v : Vec)
    (hne : sp.mostSimilar v 10 ≠ []) :
    candidate sp model [] v = .ok none := by
  cases hms : sp.mostSimilar v 10 with
  | nil => exact absurd hms hne
  | cons p ps =>
    unfold candidate candidateEval
    rw [mapME_nil, exBind_ok, hms]
    simp only [List.head?_cons, List.map_nil, List.zip_nil_left, mapME_nil,
      exBind_ok, List.flatten_nil, npMeanScalar]

/-- C10: for a single-concept model the skeleton is empty, every
candidate's score list is empty, numpy's mean of it is NaN, the
threshold test fails, and the scan over any resolvable target domain
emits nothing — it does not fail with an insufficient-concepts error. -/
theorem c10_single_concept_no_match (sp : VectorSpace) (c : Concept)
    (target : Option String) (dom : List Vec)
    (hdom : targetDomain sp target = .ok dom)
    (hne : ∀ v ∈ dom, sp.mostSimilar v 10 ≠ []) :
    matchRun sp [c] target = .ok [] := by
  unfold matchRun
  dsimp only
  rw [mapME_nil, exBind_ok, hdom, exBind_ok]
  rw [mapME_of_ok (fun _ => (none : Option MatchRec))
    (fun v hv => candidate_empty_skeleton sp [c] v (hne v hv)), exBind_ok]
  rw [List.filterMap_map]
  simp

/-- C10 witness: `matchRun` on the single-concept model `["x"]` over the
whole concrete space scans its one vector and emits nothing. -/
theorem c10_witness : matchRun exSp [Concept.key "x"] none = .ok [] :=
  c10_single_concept_no_match exSp (Concept.key "x") none [[1]] rfl
    (fun v _ => by simp [exSp])

/-- C3: a candidate of the `match` scan is emitted exactly when its mean
alignment score is a number exceeding 0.25 (a NaN mean never passes), and
a successful `matchRun` emits exactly the records of the candidates of
its target domain whose score passes the threshold, in scan order. -/
theorem c3_emission_threshold :
    (∀ (sp : VectorSpace) (model : List Concept) (skeleton : List Vec) (v : Vec)
        (root : String) (leaves : List (List String)) (so : Option ℝ) (rec : MatchRec),
      candidateEval sp model skeleton v = .ok (root, leaves, so) →
      (candidate sp model skeleton v = .ok (some rec) ↔
        ∃ m, so = some m ∧ (0.25 : ℝ) < m ∧ rec = ⟨root, leaves, m⟩)) ∧
    (∀ (sp : VectorSpace) (model : List Concept) (target : Option String)
        (l : List MatchRec), matchRun sp model target = .ok l →
      ∀ rec : MatchRec, rec ∈ l ↔
        ∃ (root : Concept) (rest : List Concept) (skeleton : List Vec)
          (dom : List Vec) (v : Vec),
          model = root :: rest ∧
          mapME (fun c => shift sp root c true true) rest = .ok skeleton ∧
          targetDomain sp target = .ok dom ∧ v ∈ dom ∧
          candidate sp model skeleton v = .ok (some rec)) := by
  constructor
  · intro sp model skeleton v root leaves so rec heval
    unfold candidate
    rw [heval, exBind_ok]
    cases so with
    | none => simp
    | some m =>
      dsimp only
      by_cases hm : (0.25 : ℝ) < m
      · rw [if_pos hm]
        constructor
        · intro h
          rw [Except.ok.injEq, Option.some.injEq] at h
          exact ⟨m, rfl, hm, h.symm⟩
        · rintro ⟨m', hm', _, hrec⟩
          rw [Option.some.injEq] at hm'
          subst hm'
          subst hrec
          rfl
      · rw [if_neg hm]
        constructor
        · intro h
          simp at h
        · rintro ⟨m', hm', hlt, _⟩
          rw [Option.some.injEq] at hm'
          subst hm'
          exact absurd hlt hm
  · intro sp model target l hrun rec
    cases model with
    | nil => simp [matchRun] at hrun
    | cons root rest =>
      unfold matchRun at hrun
      obtain ⟨skeleton, hskel, h2⟩ := exBind_ok_inv hrun
      try dsimp only at h2
      obtain ⟨dom, hdom, h3⟩ := exBind_ok_inv h2
      try dsimp only at h3
      obtain ⟨outs, houts, h4⟩ := exBind_ok_inv h3
      rw [Except.ok.injEq] at h4
      subst h4
      constructor
      · intro hmem
        obtain ⟨o, ho, hid⟩ := List.mem_filterMap.mp hmem
        have : o = some rec := hid
        subst this
        obtain ⟨v, hv, hcand⟩ := (mapME_mem_iff houts _).mp ho
        exact ⟨root, rest, skeleton, dom, v, rfl, hskel, hdom, hv, hcand⟩
      · rintro ⟨root', rest', skeleton', dom', v, heq, hskel', hdom', hv, hcand⟩
        rw [List.cons.injEq] at heq
        obtain ⟨rfl, rfl⟩ := heq
        rw [hskel, Except.ok.injEq] at hskel'
        subst hskel'
        rw [hdom, Except.ok.injEq] at hdom'
        subst hdom'
        apply List.mem_filterMap.mpr
        exact ⟨some rec, (mapME_mem_iff houts _).mpr ⟨v, hv, hcand⟩, rfl⟩

/-- C3 witness: the emission rule applied on the concrete space to a
candidate whose score list is empty (NaN mean): no record is emitted. -/
theorem c3_witness :
    candidate exSp [Concept.key "r"] [] [1] =
        .ok (some (⟨"x", [], 1⟩ : MatchRec)) ↔
      ∃ m, (none : Option ℝ) = some m ∧ (0.25 : ℝ) < m ∧
        (⟨"x", [], 1⟩ : MatchRec) = ⟨"paris", [], m⟩ :=
  c3_emission_threshold.1 exSp [Concept.key "r"] [] [1] "paris" [] none ⟨"x", [], 1⟩ rfl

theorem exBind_isOk_of_ok {α β : Type} {x : Except SemErr α} {a : α}
    (hx : x = .ok a) (f : α → β) :
    ∃ b, exBind x (fun y => .ok (f y)) = .ok b :=
  ⟨f a, by rw [hx, exBind_ok]⟩

theorem candidateEval_isOk (sp : VectorSpace) (model : List Concept)
    (skeleton : List Vec) (v : Vec)
    (hne : ∀ u : Vec, sp.mostSimilar u 10 ≠ [])
    (hknown : ∀ (u : Vec) (n : Nat) (p : String × ℝ), p ∈ sp.mostSimilar u n →
      ∃ w, sp.getVector p.1 = some w) :
    ∃ r, candidateEval sp model skeleton v = .ok r := by
  obtain ⟨leafVecs, hlv⟩ := mapME_isOk (fun skel _ => mixVec_isOk sp v skel)
  unfold candidateEval
  rw [hlv, exBind_ok]
  cases hms : sp.mostSimilar v 10 with
  | nil => exact absurd hms (hne v)
  | cons p ps =>
    simp only [List.head?_cons]
    try dsimp only
    have hroot : ∃ w, sp.getVector p.1 = some w :=
      hknown v 10 p (hms ▸ List.mem_cons_self p ps)
    obtain ⟨w0, hw0⟩ := hroot
    have hin : ∀ pr ∈ skeleton.zip (leafVecs.map (fun f =>
        ((sp.mostSimilar f 10).map Prod.fst).filter
          (fun e => !pyMem e model && e != p.1))),
        ∃ ys, mapME (fun lk => exBind (shift sp (.key p.1) (.key lk) true true)
          (fun sh => .ok (dotp sh pr.1))) pr.2 = .ok ys := by
      intro pr hpr
      apply mapME_isOk
      intro lk hlk
      obtain ⟨_, hpr2⟩ := List.of_mem_zip hpr
      obtain ⟨f, _, hf⟩ := List.mem_map.mp hpr2
      rw [← hf] at hlk
      have hlk2 : lk ∈ (sp.mostSimilar f 10).map Prod.fst :=
        List.mem_of_mem_filter hlk
      obtain ⟨q, hq, hq1⟩ := List.mem_map.mp hlk2
      obtain ⟨w1, hw1⟩ := hknown f 10 q hq
      obtain ⟨sh, hsh⟩ := shift_isOk sp (.key p.1) (.key lk) true true
        (to_vector_key_isOk sp p.1 true w0 hw0)
        (to_vector_key_isOk sp lk true w1 (hq1 ▸ hw1))
      exact exBind_isOk_of_ok hsh (fun sh => dotp sh pr.1)
    obtain ⟨scoreLists, hsl⟩ := mapME_isOk hin
    exact exBind_isOk_of_ok hsl _

theorem candidate_isOk (sp : VectorSpace) (model : List Concept)
    (skeleton : List Vec) (v : Vec)
    (hne : ∀ u : Vec, sp.mostSimilar u 10 ≠ [])
    (hknown : ∀ (u : Vec) (n : Nat) (p : String × ℝ), p ∈ sp.mostSimilar u n →
      ∃ w, sp.getVector p.1 = some w) :
    ∃ out, candidate sp model skeleton v = .ok out := by
  obtain ⟨r, hr⟩ := candidateEval_isOk sp model skeleton v hne hknown
  obtain ⟨root, leaves, so⟩ := r
  unfold candidate
  rw [hr, exBind_ok]
  cases so with
  | none => exact ⟨none, rfl⟩
  | some m =>
    exact ⟨if (0.25 : ℝ) < m then some ⟨root, leaves, m⟩ else none, rfl⟩

/-- C4 (amended): a candidate whose *entire* score list is empty (for
example when every filtered leaf-key list is empty) has a NaN mean and is
skipped without producing a numeric score; but if only some leaf-key
lists are empty, the remaining contributions still give a numeric mean
and the candidate can be emitted.  Under the space's contract (nonempty
neighbour answers whose keys resolve), per-candidate processing never
raises, so no candidate aborts the scan. -/
theorem c4_skip_policy :
    (∀ (sp : VectorSpace) (model : List Concept) (skeleton : List Vec) (v : Vec)
        (root : String) (leaves : List (List String)),
      candidateEval sp model skeleton v = .ok (root, leaves, none) →
      candidate sp model skeleton v = .ok none) ∧
    (∀ (sp : VectorSpace) (model : List Concept) (skeleton : List Vec) (v : Vec)
        (root : String) (leaves : List (List String)) (so : Option ℝ),
      candidateEval sp model skeleton v = .ok (root, leaves, so) →
      (∀ ks ∈ leaves, ks = ([] : List String)) → so = none) ∧
    (∀ (sp : VectorSpace) (root : Concept) (rest : List Concept)
        (target : Option String) (dom : List Vec),
      targetDomain sp target = .ok dom →
      (∀ c ∈ root :: rest, ∃ w, to_vector sp c true = .ok w) →
      (∀ u : Vec, sp.mostSimilar u 10 ≠ []) →
      (∀ (u : Vec) (n : Nat) (p : String × ℝ), p ∈ sp.mostSimilar u n →
        ∃ w, sp.getVector p.1 = some w) →
      ∃ l, matchRun sp (root :: rest) target = .ok l) := by
  refine ⟨?_, ?_, ?_⟩
  · intro sp model skeleton v root leaves heval
    unfold candidate
    rw [heval, exBind_ok]
  · intro sp model skeleton v root leaves so heval hleaves
    unfold candidateEval at heval
    obtain ⟨leafVecs, _, h2⟩ := exBind_ok_inv heval
    try dsimp only at h2
    cases hh : (sp.mostSimilar v 10).head? with
    | none =>
      rw [hh] at h2
      simp at h2
    | some rootPair =>
      rw [hh] at h2
      try dsimp only at h2
      obtain ⟨scoreLists, hsl, h3⟩ := exBind_ok_inv h2
      rw [Except.ok.injEq] at h3
      simp only [Prod.mk.injEq] at h3
      obtain ⟨_, rfl, rfl⟩ := h3
      have hflat : scoreLists.flatten = [] := by
        apply flatten_of_all_nil
        intro ys hys
        obtain ⟨pr, hpr, hg⟩ := (mapME_mem_iff hsl ys).mp hys
        obtain ⟨_, hpr2⟩ := List.of_mem_zip hpr
        have : pr.2 = [] := hleaves pr.2 hpr2
        rw [this, mapME_nil, Except.ok.injEq] at hg
        exact hg.symm
      rw [hflat]
      rfl
  · intro sp root rest target dom hdom hmodel hne hknown
    obtain ⟨skeleton, hskel⟩ :=
      mapME_isOk (fun c hc => shift_isOk sp root c true true
        (hmodel root (List.mem_cons_self root rest))
        (hmodel c (List.mem_cons_of_mem root hc)))
    obtain ⟨outs, houts⟩ :=
      mapME_isOk (fun v _ => candidate_isOk sp (root :: rest) skeleton v hne hknown)
    refine ⟨outs.filterMap id, ?_⟩
    unfold matchRun
    dsimp only
    rw [hskel, exBind_ok, hdom, exBind_ok, houts, exBind_ok]

theorem exSp4_matchRun :
    matchRun exSp4 [Concept.key "r", Concept.key "a", Concept.key "b"] none =
      .ok [⟨"p", [["q"], []], 1⟩] := by
  have hU1 : unitvec [(1 : ℝ)] = [1] := unitvec_singleton_sq_one 1 (by norm_num)
  have hUm1 : unitvec [(-1 : ℝ)] = [-1] := unitvec_singleton_sq_one (-1) (by norm_num)
  have hU0 : unitvec [(0 : ℝ)] = [0] := unitvec_zero_single
  have htvr : to_vector exSp4 (.key "r") true = .ok [(-1 : ℝ)] := by
    have h0 : to_vector exSp4 (.key "r") true = .ok (unitvec [(-1 : ℝ)]) := rfl
    rw [h0, hUm1]
  have htva : to_vector exSp4 (.key "a") true = .ok [(1 : ℝ)] := by
    have h0 : to_vector exSp4 (.key "a") true = .ok (unitvec [(1 : ℝ)]) := rfl
    rw [h0, hU1]
  have htvb : to_vector exSp4 (.key "b") true = .ok [(-1 : ℝ)] := by
    have h0 : to_vector exSp4 (.key "b") true = .ok (unitvec [(-1 : ℝ)]) := rfl
    rw [h0, hUm1]
  have htvp : to_vector exSp4 (.key "p") true = .ok [(-1 : ℝ)] := by
    have h0 : to_vector exSp4 (.key "p") true = .ok (unitvec [(-1 : ℝ)]) := rfl
    rw [h0, hUm1]
  have htvq : to_vector exSp4 (.key "q") true = .ok [(1 : ℝ)] := by
    have h0 : to_vector exSp4 (.key "q") true = .ok (unitvec [(1 : ℝ)]) := rfl
    rw [h0, hU1]
  have hz1 : List.zipWith (fun a b => (b - a) / 2) [(-1 : ℝ)] [(1 : ℝ)] = [(1 : ℝ)] := by
    norm_num
  have hz0 : List.zipWith (fun a b => (b - a) / 2) [(-1 : ℝ)] [(-1 : ℝ)] = [(0 : ℝ)] := by
    norm_num
  have hska : shift exSp4 (.key "r") (.key "a") true true = .ok [(1 : ℝ)] := by
    unfold shift
    rw [htvr, exBind_ok, htva, exBind_ok, shift_raw_eq, hz1]
    try dsimp only
    try rw [if_pos rfl]
    rw [hU1]
  have hskb : shift exSp4 (.key "r") (.key "b") true true = .ok [(0 : ℝ)] := by
    unfold shift
    rw [htvr, exBind_ok, htvb, exBind_ok, shift_raw_eq, hz0]
    try dsimp only
    try rw [if_pos rfl]
    rw [hU0]
  have hskpq : shift exSp4 (.key "p") (.key "q") true true = .ok [(1 : ℝ)] := by
    unfold shift
    rw [htvp, exBind_ok, htvq, exBind_ok, shift_raw_eq, hz1]
    try dsimp only
    try rw [if_pos rfl]
    rw [hU1]
  have hskel : mapME (fun c => shift exSp4 (.key "r") c true true)
      [Concept.key "a", Concept.key "b"] = .ok [[(1 : ℝ)], [(0 : ℝ)]] := by
    simp only [mapME, hska, hskb, exBind_ok]
  have hmsm1 : exSp4.mostSimilar [(-1 : ℝ)] 10 = [("p", 1)] := by
    show (if ([(-1 : ℝ)] : List ℝ) = [0] then [("q", (1 : ℝ))]
      else if ([(-1 : ℝ)] : List ℝ) = [-1 / 2] then [("r", 1)] else [("p", 1)]) = [("p", 1)]
    rw [if_neg (by norm_num), if_neg (by norm_num)]
  have hms0 : exSp4.mostSimilar [(0 : ℝ)] 10 = [("q", 1)] := by
    show (if ([(0 : ℝ)] : List ℝ) = [0] then [("q", (1 : ℝ))]
      else if ([(0 : ℝ)] : List ℝ) = [-1 / 2] then [("r", 1)] else [("p", 1)]) = [("q", 1)]
    rw [if_pos rfl]
  have hmsn : exSp4.mostSimilar [(-1 / 2 : ℝ)] 10 = [("r", 1)] := by
    show (if ([(-1 / 2 : ℝ)] : List ℝ) = [0] then [("q", (1 : ℝ))]
      else if ([(-1 / 2 : ℝ)] : List ℝ) = [-1 / 2] then [("r", 1)] else [("p", 1)]) = [("r", 1)]
    rw [if_neg (by norm_num), if_pos rfl]
  have hmx1 : mixVec exSp4 [(-1 : ℝ)] [(1 : ℝ)] = .ok [(0 : ℝ)] := by
    rw [mixVec_eq, hUm1, hU1]
    norm_num [vAdd]
  have hmx2 : mixVec exSp4 [(-1 : ℝ)] [(0 : ℝ)] = .ok [(-1 / 2 : ℝ)] := by
    rw [mixVec_eq, hUm1, hU0]
    norm_num [vAdd]
  have hlv : mapME (mixVec exSp4 [(-1 : ℝ)]) [[(1 : ℝ)], [(0 : ℝ)]] =
      .ok [[(0 : ℝ)], [(-1 / 2 : ℝ)]] := by
    simp only [mapME, hmx1, hmx2, exBind_ok]
  have hf1 : List.filter
      (fun e => !pyMem e [Concept.key "r", Concept.key "a", Concept.key "b"] && e != "p")
      ["q"] = ["q"] := by decide
  have hf2 : List.filter
      (fun e => !pyMem e [Concept.key "r", Concept.key "a", Concept.key "b"] && e != "p")
      ["r"] = [] := by decide
  have hdot : dotp [(1 : ℝ)] [(1 : ℝ)] = 1 := by norm_num [dotp]
  have hce : candidateEval exSp4 [Concept.key "r", Concept.key "a", Concept.key "b"]
      [[(1 : ℝ)], [(0 : ℝ)]] [(-1 : ℝ)] = .ok ("p", [["q"], []], some (1 : ℝ)) := by
    unfold candidateEval
    rw [hlv, exBind_ok, hmsm1]
    simp only [List.head?_cons]
    try dsimp only
    rw [List.map_cons, List.map_cons, List.map_nil, hms0, hmsn]
    simp only [List.map_cons, List.map_nil, hf1, hf2]
    simp only [List.zip_cons_cons, List.zip_nil_right, List.zip_nil_left]
    simp only [mapME, hskpq, exBind_ok, mapME_nil]
    simp only [List.flatten, List.append_nil, npMeanScalar]
    norm_num [hdot]
  have hcand : candidate exSp4 [Concept.key "r", Concept.key "a", Concept.key "b"]
      [[(1 : ℝ)], [(0 : ℝ)]] [(-1 : ℝ)] = .ok (some ⟨"p", [["q"], []], 1⟩) := by
    unfold candidate
    rw [hce, exBind_ok]
    try dsimp only
    rw [if_pos (by norm_num)]
  unfold matchRun
  try dsimp only
  rw [hskel, exBind_ok]
  rw [show targetDomain exSp4 none = .ok [[(-1 : ℝ)]] from rfl, exBind_ok]
  simp only [mapME, hcand, exBind_ok, mapME_nil]
  rfl

/-- C4 counterexample: on the concrete space `exSp4` the scan over the
model `["r", "a", "b"]` emits a match whose second leaf-key list is empty
— refuting "if newLeafKeys[j] is empty for some relation j, that
candidate is skipped (treated as a non-match)". -/
theorem c4_counterexample :
    ¬ (∀ l, matchRun exSp4 [Concept.key "r", Concept.key "a", Concept.key "b"] none =
          Except.ok l → ∀ rec ∈ l, ([] : List String) ∉ rec.leaves) := by
  intro h
  exact h [⟨"p", [["q"], []], 1⟩] exSp4_matchRun ⟨"p", [["q"], []], 1⟩
    (List.mem_singleton.mpr rfl) (by simp)

/-- C4 witness: the skip rule applied to a concrete candidate with an
empty score list, and the no-abort clause applied to a concrete scan. -/
theorem c4_witness :
    candidate exSp [Concept.key "r"] [] [1] = .ok none ∧
    ∃ l, matchRun exSp [Concept.key "a"] none = .ok l := by
  constructor
  · exact c4_skip_policy.1 exSp [Concept.key "r"] [] [1] "paris" [] rfl
  · refine c4_skip_policy.2.2 exSp (Concept.key "a") [] none [[1]] rfl ?_ ?_ ?_
    · intro c hc
      rw [List.mem_singleton] at hc
      subst hc
      exact ⟨unitvec [1], rfl⟩
    · intro u
      rw [show exSp.mostSimilar u 10 = [("paris", 1)] from rfl]
      simp
    · intro u n p hp
      have hp2 : p ∈ [("paris", (1 : ℝ))] := List.take_subset n _ hp
      rw [List.mem_singleton] at hp2
      subst hp2
      exact ⟨[1], rfl⟩

end Semantica
